import Mathlib

/-!
A shallow embedding of the harvesting/deduplication/filtering core of
SciPubCrawl (`src/search_crossref.py`, `src/search_europe_pmc.py`).

Records are JSON objects modelled as association lists of field name to
`JVal`.  JSON numbers are modelled as integers (the code never inspects
numeric fields; floating point is out of scope).  A JSONL input line is
modelled as `Option Rec`: `none` for a line `json.loads` rejects (the code
silently skips it), `some r` for a line parsing to the object `r`.  A JSON
line that parses to a non-object would crash the Python code (uncaught
`AttributeError` on `.get`) and is outside the modelled state space, as is
a record whose `DOI`/`doi`/`id` field holds a truthy non-string value
(uncaught `AttributeError` on `.strip`).

Python's per-process string hash (used by the Europe PMC title fallback
key) is modelled as an explicit function parameter `hashFn : String → Int`:
it is fixed within one process, which is the determinism the code relies
on.  `json.dumps`/`json.loads` round-tripping (loads (dumps o) = o for the
modelled values, with key order preserved) is built into the model: the
second pass of a double deduplication is fed the kept records themselves.
-/

namespace SciPub

/-- JSON-like values (numbers restricted to integers; see the header). -/
inductive JVal where
  | null
  | bool (b : Bool)
  | num (n : Int)
  | str (s : String)
  | arr (elems : List JVal)
  | obj (fields : List (String × JVal))

/-- A parsed JSONL record: one JSON object, as an ordered association list
(Python dicts preserve insertion order and have unique keys). -/
abbrev Rec := List (String × JVal)

/-- `entry.get(k)`: first binding of `k`, `none` when absent. -/
def jget : Rec → String → Option JVal
  | [], _ => none
  | (k', v) :: tl, k => if k' = k then some v else jget tl k

/-- Python truthiness of a JSON value. -/
def jtruthy : JVal → Bool
  | .null => false
  | .bool b => b
  | .num n => n != 0
  | .str s => !(s == "")
  | .arr l => !l.isEmpty
  | .obj l => !l.isEmpty

/-- `(a or b or ... or "")`: the first truthy value, else the empty string
(`None`, i.e. a missing field, is falsy). -/
def orDefault : List (Option JVal) → JVal
  | [] => .str ""
  | none :: tl => orDefault tl
  | some v :: tl => if jtruthy v then v else orDefault tl

/-- ASCII lowering of one character (`str.lower` restricted to the ASCII
identifiers the model handles). -/
def asciiLowerChar (c : Char) : Char :=
  if 65 ≤ c.toNat ∧ c.toNat ≤ 90 then Char.ofNat (c.toNat + 32) else c

/-- `s.lower()` (ASCII). -/
def pyLower (s : String) : String := String.mk (s.data.map asciiLowerChar)

/-- The whitespace `str.strip()` removes. -/
def isPySpace (c : Char) : Bool :=
  c == ' ' || c == '\t' || c == '\n' || c == '\r' || c == Char.ofNat 11 || c == Char.ofNat 12

/-- `s.strip()`. -/
def pyStrip (s : String) : String :=
  String.mk (((s.data.dropWhile isPySpace).reverse.dropWhile isPySpace).reverse)

/-- `s.strip().lower()`. -/
def pyStripLower (s : String) : String := pyLower (pyStrip s)

/-- `_text_to_str`: a string is itself, a list keeps its string elements
joined with spaces, anything else is empty text. -/
def textToStr : Option JVal → String
  | some (.arr xs) =>
      String.intercalate " " (xs.filterMap fun v =>
        match v with
        | .str s => some s
        | _ => none)
  | some (.str s) => s
  | _ => ""

/-- Crossref identity key: `(entry.get("DOI") or entry.get("doi") or
"").strip().lower()`; empty when no DOI is present. -/
def crKey (entry : Rec) : String :=
  match orDefault [jget entry "DOI", jget entry "doi"] with
  | .str s => pyStripLower s
  | _ => ""

/-- Europe PMC: `(entry.get("doi") or entry.get("DOI") or "").strip().lower()`. -/
def euDoi (entry : Rec) : String :=
  match orDefault [jget entry "doi", jget entry "DOI"] with
  | .str s => pyStripLower s
  | _ => ""

/-- Europe PMC: `(entry.get("id") or "").strip()`. -/
def euId (entry : Rec) : String :=
  match orDefault [jget entry "id"] with
  | .str s => pyStrip s
  | _ => ""

/-- `_dedup_key_eupmc`: DOI, else source id, else a hash of the title
(`hashFn` stands for Python's per-process `hash`). -/
def euKey (hashFn : String → Int) (entry : Rec) : String :=
  if euDoi entry ≠ "" then "doi:" ++ euDoi entry
  else if euId entry ≠ "" then "id:" ++ euId entry
  else "title:" ++ toString (hashFn (textToStr (jget entry "title")))

/-! ### json.dumps (default separators, ensure_ascii) -/

def hexDigit (n : Nat) : Char :=
  if n < 10 then Char.ofNat (48 + n) else Char.ofNat (87 + n % 16)

def hex4 (n : Nat) : String :=
  String.mk [hexDigit (n / 4096 % 16), hexDigit (n / 256 % 16),
             hexDigit (n / 16 % 16), hexDigit (n % 16)]

/-- One character of a JSON string as `json.dumps` (default `ensure_ascii`)
writes it; code points above the BMP are outside the modelled inputs. -/
def jsonEscapeChar (c : Char) : String :=
  if c = '"' then "\\\""
  else if c = '\\' then "\\\\"
  else if c = '\n' then "\\n"
  else if c = '\t' then "\\t"
  else if c = '\r' then "\\r"
  else if c = Char.ofNat 8 then "\\b"
  else if c = Char.ofNat 12 then "\\f"
  else if c.toNat < 32 || c.toNat > 126 then "\\u" ++ hex4 c.toNat
  else String.singleton c

def jsonQuote (s : String) : String :=
  "\"" ++ String.join (s.data.map jsonEscapeChar) ++ "\""

mutual

/-- `json.dumps` with its default separators `", "` and `": "`. -/
def pyDumps : JVal → String
  | .null => "null"
  | .bool true => "true"
  | .bool false => "false"
  | .num n => toString n
  | .str s => jsonQuote s
  | .arr xs => "[" ++ pyDumpsList xs ++ "]"
  | .obj kvs => "\x7b" ++ pyDumpsObj kvs ++ "\x7d"

def pyDumpsList : List JVal → String
  | [] => ""
  | [x] => pyDumps x
  | x :: y :: tl => pyDumps x ++ ", " ++ pyDumpsList (y :: tl)

def pyDumpsObj : List (String × JVal) → String
  | [] => ""
  | [(k, v)] => jsonQuote k ++ ": " ++ pyDumps v
  | (k, v) :: p :: tl => jsonQuote k ++ ": " ++ pyDumps v ++ ", " ++ pyDumpsObj (p :: tl)

end

/-! ### Batch deduplication (`_deduplicate_jsonl_file`) -/

/-- Per-file statistics of one batch deduplication pass. -/
structure DedupStats where
  total : Nat
  kept : Nat
  duplicates : Nat
  missing : Nat
deriving DecidableEq

/-- Kept records of the Crossref `_deduplicate_jsonl_file` pass, in input
order: unparsable lines are skipped, records without a DOI key are always
kept, a record whose key was already seen is dropped. -/
def dedupCrKept (seen : List String) : List (Option Rec) → List Rec
  | [] => []
  | none :: tl => dedupCrKept seen tl
  | some obj :: tl =>
    if crKey obj = "" then obj :: dedupCrKept seen tl
    else if crKey obj ∈ seen then dedupCrKept seen tl
    else obj :: dedupCrKept (crKey obj :: seen) tl

/-- The counters (total, kept, missing_doi) of the same Crossref pass. -/
def dedupCrCounts (seen : List String) : List (Option Rec) → Nat × Nat × Nat
  | [] => (0, 0, 0)
  | none :: tl =>
    let c := dedupCrCounts seen tl
    (c.1 + 1, c.2.1, c.2.2)
  | some obj :: tl =>
    if crKey obj = "" then
      let c := dedupCrCounts seen tl
      (c.1 + 1, c.2.1 + 1, c.2.2 + 1)
    else if crKey obj ∈ seen then
      let c := dedupCrCounts seen tl
      (c.1 + 1, c.2.1, c.2.2)
    else
      let c := dedupCrCounts (crKey obj :: seen) tl
      (c.1 + 1, c.2.1 + 1, c.2.2)

/-- The stats dict the Crossref pass returns:
`{"total": total, "kept": kept, "duplicates": total - kept, "missing_doi": missing_doi}`. -/
def dedupCrStats (file : List (Option Rec)) : DedupStats :=
  let c := dedupCrCounts [] file
  ⟨c.1, c.2.1, c.1 - c.2.1, c.2.2⟩

/-- Kept output lines of the Crossref pass: each kept record is written as
`json.dumps(obj)` (the raw input line is not reused after parsing). -/
def dedupCrLines (seen : List String) : List (String × Option Rec) → List String
  | [] => []
  | (_, none) :: tl => dedupCrLines seen tl
  | (_, some obj) :: tl =>
    if crKey obj = "" then pyDumps (.obj obj) :: dedupCrLines seen tl
    else if crKey obj ∈ seen then dedupCrLines seen tl
    else pyDumps (.obj obj) :: dedupCrLines (crKey obj :: seen) tl

/-- Kept records of the Europe PMC `_deduplicate_jsonl_file` pass.  The
`key = ""` branch mirrors the source's `if not key` (dead in practice:
`_dedup_key_eupmc` always returns a prefixed, nonempty key). -/
def dedupEuKept (hashFn : String → Int) (seen : List String) : List (Option Rec) → List Rec
  | [] => []
  | none :: tl => dedupEuKept hashFn seen tl
  | some obj :: tl =>
    if euKey hashFn obj = "" then obj :: dedupEuKept hashFn seen tl
    else if euKey hashFn obj ∈ seen then dedupEuKept hashFn seen tl
    else obj :: dedupEuKept hashFn (euKey hashFn obj :: seen) tl

/-! ### Regex relevance filter -/

/-- Compiled groups: group name to its list of pattern strings (pattern
compilation carries no state beyond the pattern text; `re.I` search is the
`sem` parameter of the matching functions). -/
abbrev Groups := List (String × List String)

/-- `_text_matches_groups` on the already-stringified text: no groups or
empty text match nothing; otherwise every group needs some matching
pattern.  `sem p t` stands for the truthiness of `re.compile(p, re.I).search(t)`. -/
def textMatchesGroups (sem : String → String → Bool) (text : String) (groups : Groups) : Bool :=
  if groups.isEmpty then false
  else if text = "" then false
  else groups.all fun gp => gp.2.any fun p => sem p text

/-- `" ".join(x for x in parts if x)`. -/
def joinTruthy (parts : List String) : String :=
  String.intercalate " " (parts.filter fun x => x ≠ "")

/-- Crossref `_matches_entry_groups`: scope dispatch over title/abstract. -/
def matchesEntryGroups (sem : String → String → Bool) (entry : Rec) (groups : Groups)
    (scope : String) : Bool :=
  let title := textToStr (jget entry "title")
  let abstract := textToStr (jget entry "abstract")
  if scope = "title" then textMatchesGroups sem title groups
  else if scope = "abstract" then textMatchesGroups sem abstract groups
  else if scope = "field" then
    textMatchesGroups sem title groups || textMatchesGroups sem abstract groups
  else textMatchesGroups sem (joinTruthy [title, abstract]) groups

/-- Europe PMC `_eupmc_matches_entry_groups`: as Crossref but the abstract
lives in `abstractText`. -/
def euMatchesEntryGroups (sem : String → String → Bool) (entry : Rec) (groups : Groups)
    (scope : String) : Bool :=
  let title := textToStr (jget entry "title")
  let abstract := textToStr (jget entry "abstractText")
  if scope = "title" then textMatchesGroups sem title groups
  else if scope = "abstract" then textMatchesGroups sem abstract groups
  else if scope = "field" then
    textMatchesGroups sem title groups || textMatchesGroups sem abstract groups
  else textMatchesGroups sem (joinTruthy [title, abstract]) groups

/-- `str()` of the scope value (only its value on strings matters: any
non-string renders to text that is none of the three named scopes). -/
def pyStr : JVal → String
  | .str s => s
  | .num n => toString n
  | .bool true => "True"
  | .bool false => "False"
  | .null => "None"
  | v => pyDumps v

/-- `_default_regex_config()`: `{"groups": {}, "scope": "field"}`. -/
def defaultRegexCfgFields : List (String × JVal) :=
  [("groups", .obj []), ("scope", .str "field")]

def isObjB : JVal → Bool
  | .obj _ => true
  | _ => false

/-- One `groups` entry of `_normalize_regex_cfg`: a bare string becomes a
one-pattern list, a list keeps its string elements, anything else is
skipped. -/
def normGroupsCfg : List (String × JVal) → Groups
  | [] => []
  | (g, v) :: tl =>
    match v with
    | .str s => (g, [s]) :: normGroupsCfg tl
    | .arr xs =>
      (g, xs.filterMap fun x =>
        match x with
        | .str s => some s
        | _ => none) :: normGroupsCfg tl
    | _ => normGroupsCfg tl

/-- `_normalize_regex_cfg`: a non-dict config is replaced by the default;
scope is `cfg.get("scope") or "field"` rendered with `str`; a non-dict
`groups` falls back to the default's empty groups. -/
def normalizeRegexCfg (cfg : Option JVal) : Groups × String :=
  let cfgObj : List (String × JVal) :=
    match cfg with
    | some (.obj fields) => fields
    | _ => defaultRegexCfgFields
  let scope := orDefault [jget cfgObj "scope", some (.str "field")]
  let groupsCfg : List (String × JVal) :=
    match jget cfgObj "groups" with
    | some (.obj fs) => fs
    | _ => []
  (normGroupsCfg groupsCfg, pyStr scope)

/-- Kept records of `regex_filter_crossref_jsonl`: a parsed record is kept
when it matches the groups and its DOI (when present) was not already
written; written as `json.dumps(obj)`. -/
def regexFilterCrKept (sem : String → String → Bool) (groups : Groups) (scope : String)
    (seen : List String) : List (Option Rec) → List Rec
  | [] => []
  | none :: tl => regexFilterCrKept sem groups scope seen tl
  | some obj :: tl =>
    if matchesEntryGroups sem obj groups scope then
      if crKey obj ≠ "" && crKey obj ∈ seen then regexFilterCrKept sem groups scope seen tl
      else if crKey obj ≠ "" then
        obj :: regexFilterCrKept sem groups scope (crKey obj :: seen) tl
      else obj :: regexFilterCrKept sem groups scope seen tl
    else regexFilterCrKept sem groups scope seen tl

/-! ### Cursor pagination -/

/-- One mocked HTTP response: 429, a transport/HTTP error
(`raise_for_status` or `requests.exceptions.RequestException`), or a
successful JSON page carrying a batch and an optional next cursor. -/
inductive ApiResponse where
  | rateLimited
  | netError
  | ok (items : List Rec) (next : Option String)

/-- Truthiness of the next-cursor field (`None` and `""` are falsy). -/
def cursorTruthy : Option String → Bool
  | none => false
  | some s => !(s == "")

def cursorVal : Option String → String
  | none => ""
  | some s => s

/-- The items of a response (empty for non-200 responses). -/
def respItems : ApiResponse → List Rec
  | .ok items _ => items
  | _ => []

/-- The trace of one pagination run against a mocked response list: the
records yielded, the cursor parameter of each issued request, and the
mocked responses never consumed. -/
structure IterTrace where
  yielded : List Rec
  requests : List String
  leftover : List ApiResponse

/-- `eupmc_iter_results`: 429 and transport errors retry the same request
without advancing the cursor; a successful page yields its items and stops
when the batch is empty, smaller than `pageSize`, or carries no (truthy)
`nextCursorMark`.  An exhausted mock list ends the trace. -/
def eupmcIter (pageSize : Nat) (cursor : String) : List ApiResponse → IterTrace
  | [] => ⟨[], [], []⟩
  | .rateLimited :: tl =>
    let t := eupmcIter pageSize cursor tl
    ⟨t.yielded, cursor :: t.requests, t.leftover⟩
  | .netError :: tl =>
    let t := eupmcIter pageSize cursor tl
    ⟨t.yielded, cursor :: t.requests, t.leftover⟩
  | .ok items next :: tl =>
    if items.isEmpty || items.length < pageSize || !cursorTruthy next then
      ⟨items, [cursor], tl⟩
    else
      let t := eupmcIter pageSize (cursorVal next) tl
      ⟨items ++ t.yielded, cursor :: t.requests, t.leftover⟩

/-- `entry[k] = v` on a Python dict: overwrite in place, else append. -/
def setField : Rec → String → JVal → Rec
  | [], k, v => [(k, v)]
  | (k', v') :: tl, k, v =>
    if k' = k then (k, v) :: tl else (k', v') :: setField tl k v

/-- The per-entry body of `search_crossref_cursor`'s write loop, over a
stream of (source query, raw entry) pairs: annotate with `source_query`,
then skip when deduplication is on and the (nonempty) DOI was seen.
Returns the written records and the final seen set. -/
def crWritePairs (dedupe : Bool) (seen : List String) :
    List (String × Rec) → List Rec × List String
  | [] => ([], seen)
  | (q, e) :: tl =>
    let e' := setField e "source_query" (.str q)
    if dedupe && !(crKey e' == "") then
      if crKey e' ∈ seen then crWritePairs dedupe seen tl
      else
        let r := crWritePairs dedupe (crKey e' :: seen) tl
        (e' :: r.1, r.2)
    else
      let r := crWritePairs dedupe seen tl
      (e' :: r.1, r.2)

/-- The per-item body of `search_eupmc_keywords`: annotate with
`source_query`, skip when deduplication is on and the key was seen; a
written item's key is always added to the seen set. -/
def euWritePairs (hashFn : String → Int) (dedupe : Bool) (seen : List String) :
    List (String × Rec) → List Rec × List String
  | [] => ([], seen)
  | (q, e) :: tl =>
    let e' := setField e "source_query" (.str q)
    if dedupe && euKey hashFn e' ∈ seen then euWritePairs hashFn dedupe seen tl
    else
      let r := euWritePairs hashFn dedupe (euKey hashFn e' :: seen) tl
      (e' :: r.1, r.2)

/-- The trace of one query's `while True` loop in `search_crossref_cursor`. -/
structure LoopTrace where
  written : List Rec
  requests : List String
  leftover : List ApiResponse
  seenOut : List String

/-- The `while True` loop of `search_crossref_cursor` for one query: 429
and transport errors retry the same request; a successful page writes its
batch (annotated, deduplicated against `seen`) and stops when the batch is
empty or smaller than `rows`, else when `next-cursor` is falsy; otherwise
the cursor advances. -/
def crossrefLoop (rows : Nat) (dedupe : Bool) (q : String) (cursor : String)
    (seen : List String) : List ApiResponse → LoopTrace
  | [] => ⟨[], [], [], seen⟩
  | .rateLimited :: tl =>
    let t := crossrefLoop rows dedupe q cursor seen tl
    ⟨t.written, cursor :: t.requests, t.leftover, t.seenOut⟩
  | .netError :: tl =>
    let t := crossrefLoop rows dedupe q cursor seen tl
    ⟨t.written, cursor :: t.requests, t.leftover, t.seenOut⟩
  | .ok batch next :: tl =>
    let w := crWritePairs dedupe seen (batch.map fun e => (q, e))
    if batch.isEmpty || batch.length < rows then ⟨w.1, [cursor], tl, w.2⟩
    else if !cursorTruthy next then ⟨w.1, [cursor], tl, w.2⟩
    else
      let t := crossrefLoop rows dedupe q (cursorVal next) w.2 tl
      ⟨w.1 ++ t.written, cursor :: t.requests, t.leftover, t.seenOut⟩

/-- `search_crossref_cursor`: one output file, one shared seen-DOI set, the
cursor reset to `"*"` for each query of the call. -/
def searchCrossrefCursor (rows : Nat) (dedupe : Bool) (seen : List String) :
    List (String × List ApiResponse) → List Rec × List String
  | [] => ([], seen)
  | (q, resps) :: qs =>
    let t := crossrefLoop rows dedupe q "*" seen resps
    let r := searchCrossrefCursor rows dedupe t.seenOut qs
    (t.written ++ r.1, r.2)

/-- `search_eupmc_keywords`: one output file, one shared seen-key set, the
items of each query delivered by `eupmc_iter_results`. -/
def searchEupmcKeywords (hashFn : String → Int) (pageSize : Nat) (dedupe : Bool)
    (seen : List String) : List (String × List ApiResponse) → List Rec × List String
  | [] => ([], seen)
  | (q, resps) :: qs =>
    let w := euWritePairs hashFn dedupe seen
      (((eupmcIter pageSize "*" resps).yielded).map fun e => (q, e))
    let r := searchEupmcKeywords hashFn pageSize dedupe w.2 qs
    (w.1 ++ r.1, r.2)

/-- The raw entries a Crossref pagination run consumes (the batches of the
successful responses up to and including the final one). -/
def crConsumed (rows : Nat) : List ApiResponse → List Rec
  | [] => []
  | .rateLimited :: tl => crConsumed rows tl
  | .netError :: tl => crConsumed rows tl
  | .ok batch next :: tl =>
    if batch.isEmpty || batch.length < rows then batch
    else if !cursorTruthy next then batch
    else batch ++ crConsumed rows tl

/-- The (query, raw entry) stream a multi-query Crossref call processes. -/
def crStream (rows : Nat) : List (String × List ApiResponse) → List (String × Rec)
  | [] => []
  | (q, resps) :: qs => ((crConsumed rows resps).map fun e => (q, e)) ++ crStream rows qs

/-- The (query, raw item) stream a multi-query Europe PMC call processes. -/
def euStream (pageSize : Nat) : List (String × List ApiResponse) → List (String × Rec)
  | [] => []
  | (q, resps) :: qs =>
    (((eupmcIter pageSize "*" resps).yielded).map fun e => (q, e)) ++ euStream pageSize qs

/-- A response the pagination loop consumes without stopping: an error, or
a full batch with a truthy next cursor. -/
def nonFinal (pageSize : Nat) : ApiResponse → Bool
  | .rateLimited => true
  | .netError => true
  | .ok items next => !(items.isEmpty || items.length < pageSize) && cursorTruthy next

/-- A successful page on which the loop stops. -/
def finalPage (pageSize : Nat) (items : List Rec) (next : Option String) : Bool :=
  items.isEmpty || items.length < pageSize || !cursorTruthy next

/-- Pattern search modelled as case-sensitive substring containment: a
convenient concrete instance of the abstract `sem` parameter, adequate for
the literal lowercase patterns of the worked examples. -/
def strLeads : List Char → List Char → Bool
  | [], _ => true
  | _ :: _, [] => false
  | a :: as, b :: bs => a == b && strLeads as bs

def substrAux (p : List Char) : List Char → Bool
  | [] => strLeads p []
  | c :: tl => strLeads p (c :: tl) || substrAux p tl

def substrMatch (p t : String) : Bool := substrAux p.data t.data

/-- The worked three-line file of the end-to-end scenario. -/
def c7r1 : Rec := [("DOI", .str "10.1/a"), ("title", .str "Lithium anode")]

def c7r2 : Rec := [("DOI", .str "10.1/A"), ("title", .str "dup")]

def c7r3 : Rec := [("title", .str "no doi")]

/-- A raw input line that is valid JSON but not in `json.dumps` canonical
form (no space after the colon). -/
def c8raw : String := "\x7b\"DOI\":\"10.1/a\"\x7d"

def c8rec : Rec := [("DOI", .str "10.1/a")]

/-- A Europe PMC record with no DOI and no source id. -/
def c2rec : Rec := [("title", .str "Same title")]

/-- A concrete stand-in for Python's per-process string hash. -/
def lenHash (s : String) : Int := Int.ofNat s.length

/-- The worked record with `foo` only in the title and `bar` only in the
abstract. -/
def c5fooBar : Rec := [("title", .str "foo"), ("abstract", .str "bar")]

/-- The worked two-group configuration `{"A": ["foo"], "B": ["bar"]}`. -/
def c5groups : Groups := [("A", ["foo"]), ("B", ["bar"])]

/-- An arbitrary record with nonempty title and abstract. -/
def c5anyRec : Rec := [("title", .str "x"), ("abstract", .str "y")]

/-- A record whose title is the empty string. -/
def c5emptyTitle : Rec := [("title", .str "")]

/-- One group holding the empty pattern, which (like the regex `""`)
matches every text, the empty text included. -/
def c5grpAll : Groups := [("A", [""])]

/-- Concrete mocked records for the pagination scenarios. -/
def w1 : Rec := [("DOI", .str "10.1/w1")]

def w2 : Rec := [("DOI", .str "10.1/w2")]

def w3 : Rec := [("DOI", .str "10.1/w3")]

/-- A non-final response run: one 429, then one full page (size 2 at page
size 2) with a truthy next cursor. -/
def c3pre : List ApiResponse := [.rateLimited, .ok [w1, w2] (some "c2")]

/-- Mocked responses lying beyond the final batch. -/
def c3post : List ApiResponse := [.ok [] none]

/-! ## Theorems -/

theorem dedupCrKept_twice (seen : List String) (F : List (Option Rec)) :
    dedupCrKept seen (List.map some (dedupCrKept seen F)) = dedupCrKept seen F := by
  induction F generalizing seen with
  | nil => rfl
  | cons hd tl ih =>
    cases hd with
    | none => simpa [dedupCrKept] using ih seen
    | some obj =>
      by_cases h1 : crKey obj = ""
      · simp [dedupCrKept, h1, ih seen]
      · by_cases h2 : crKey obj ∈ seen
        · simp [dedupCrKept, h1, h2, ih seen]
        · simp [dedupCrKept, h1, h2, ih (crKey obj :: seen)]

theorem dedupEuKept_twice (hashFn : String → Int) (seen : List String)
    (F : List (Option Rec)) :
    dedupEuKept hashFn seen (List.map some (dedupEuKept hashFn seen F))
      = dedupEuKept hashFn seen F := by
  induction F generalizing seen with
  | nil => rfl
  | cons hd tl ih =>
    cases hd with
    | none => simpa [dedupEuKept] using ih seen
    | some obj =>
      by_cases h1 : euKey hashFn obj = ""
      · simp [dedupEuKept, h1, ih seen]
      · by_cases h2 : euKey hashFn obj ∈ seen
        · simp [dedupEuKept, h1, h2, ih seen]
        · simp [dedupEuKept, h1, h2, ih (euKey hashFn obj :: seen)]

/-- C1.  Batch deduplication is idempotent: feeding the kept records of one
`_deduplicate_jsonl_file` pass (each output line parses back to the record
it serialized) into a second pass keeps exactly the same records, so the
second run's output lines — `json.dumps(obj) + "\n"` for each kept record —
are byte-for-byte those of the first run, in the same order.  Holds for the
Crossref (DOI) pass and for the Europe PMC pass with any fixed (per-process
deterministic) title-hash function. -/
theorem dedup_batch_idempotent :
    (∀ F : List (Option Rec),
      dedupCrKept [] (List.map some (dedupCrKept [] F)) = dedupCrKept [] F) ∧
    (∀ F : List (Option Rec),
      (dedupCrKept [] (List.map some (dedupCrKept [] F))).map
          (fun r => pyDumps (.obj r) ++ "\n")
        = (dedupCrKept [] F).map (fun r => pyDumps (.obj r) ++ "\n")) ∧
    (∀ (hashFn : String → Int) (F : List (Option Rec)),
      dedupEuKept hashFn [] (List.map some (dedupEuKept hashFn [] F))
        = dedupEuKept hashFn [] F) ∧
    (∀ (hashFn : String → Int) (F : List (Option Rec)),
      (dedupEuKept hashFn [] (List.map some (dedupEuKept hashFn [] F))).map
          (fun r => pyDumps (.obj r) ++ "\n")
        = (dedupEuKept hashFn [] F).map (fun r => pyDumps (.obj r) ++ "\n")) :=
  ⟨fun F => dedupCrKept_twice [] F,
   fun F => congrArg _ (dedupCrKept_twice [] F),
   fun hashFn F => dedupEuKept_twice hashFn [] F,
   fun hashFn F => congrArg _ (dedupEuKept_twice hashFn [] F)⟩

/-- C7.  The end-to-end scenario: same DOI up to case is a duplicate, the
no-DOI line is kept, and the returned stats are
`{"total": 3, "kept": 2, "duplicates": 1, "missing_doi": 1}`. -/
theorem crossref_dedup_end_to_end :
    dedupCrKept [] [some c7r1, some c7r2, some c7r3] = [c7r1, c7r3] ∧
    dedupCrStats [some c7r1, some c7r2, some c7r3]
      = ⟨3, 2, 1, 1⟩ := ⟨rfl, rfl⟩

theorem dedupCrKept_sublist (seen : List String) (F : List (Option Rec)) :
    List.Sublist (dedupCrKept seen F) (F.filterMap id) := by
  induction F generalizing seen with
  | nil => exact List.Sublist.refl _
  | cons hd tl ih =>
    cases hd with
    | none => simpa [dedupCrKept] using ih seen
    | some obj =>
      by_cases h1 : crKey obj = ""
      · simpa [dedupCrKept, h1] using (ih seen).cons₂ obj
      · by_cases h2 : crKey obj ∈ seen
        · simpa [dedupCrKept, h1, h2] using (ih seen).cons obj
        · simpa [dedupCrKept, h1, h2] using (ih (crKey obj :: seen)).cons₂ obj

theorem dedupEuKept_sublist (hashFn : String → Int) (seen : List String)
    (F : List (Option Rec)) :
    List.Sublist (dedupEuKept hashFn seen F) (F.filterMap id) := by
  induction F generalizing seen with
  | nil => exact List.Sublist.refl _
  | cons hd tl ih =>
    cases hd with
    | none => simpa [dedupEuKept] using ih seen
    | some obj =>
      by_cases h1 : euKey hashFn obj = ""
      · simpa [dedupEuKept, h1] using (ih seen).cons₂ obj
      · by_cases h2 : euKey hashFn obj ∈ seen
        · simpa [dedupEuKept, h1, h2] using (ih seen).cons obj
        · simpa [dedupEuKept, h1, h2] using (ih (euKey hashFn obj :: seen)).cons₂ obj

theorem regexFilterCrKept_sublist (sem : String → String → Bool) (groups : Groups)
    (scope : String) (seen : List String) (F : List (Option Rec)) :
    List.Sublist (regexFilterCrKept sem groups scope seen F) (F.filterMap id) := by
  induction F generalizing seen with
  | nil => exact List.Sublist.refl _
  | cons hd tl ih =>
    cases hd with
    | none => simpa [regexFilterCrKept] using ih seen
    | some obj =>
      by_cases hm : matchesEntryGroups sem obj groups scope
      · by_cases h1 : crKey obj = ""
        · simpa [regexFilterCrKept, hm, h1] using (ih seen).cons₂ obj
        · by_cases h2 : crKey obj ∈ seen
          · simpa [regexFilterCrKept, hm, h1, h2] using (ih seen).cons obj
          · simpa [regexFilterCrKept, hm, h1, h2] using (ih (crKey obj :: seen)).cons₂ obj
      · simpa [regexFilterCrKept, hm] using (ih seen).cons obj

theorem dedupCrLines_eq_map (seen : List String) (F : List (String × Option Rec)) :
    dedupCrLines seen F
      = (dedupCrKept seen (F.map Prod.snd)).map (fun r => pyDumps (.obj r)) := by
  induction F generalizing seen with
  | nil => rfl
  | cons hd tl ih =>
    obtain ⟨raw, pr⟩ := hd
    cases pr with
    | none => simpa [dedupCrLines, dedupCrKept] using ih seen
    | some obj =>
      by_cases h1 : crKey obj = ""
      · simp [dedupCrLines, dedupCrKept, h1, ih seen]
      · by_cases h2 : crKey obj ∈ seen
        · simp [dedupCrLines, dedupCrKept, h1, h2, ih seen]
        · simp [dedupCrLines, dedupCrKept, h1, h2, ih (crKey obj :: seen)]

theorem dedupCrLines_sublist_of_canonical (seen : List String)
    (F : List (String × Option Rec))
    (hc : ∀ p ∈ F, ∀ r : Rec, p.2 = some r → p.1 = pyDumps (.obj r)) :
    List.Sublist (dedupCrLines seen F) (F.map Prod.fst) := by
  induction F generalizing seen with
  | nil => exact List.Sublist.refl _
  | cons hd tl ih =>
    obtain ⟨raw, pr⟩ := hd
    have hc' : ∀ p ∈ tl, ∀ r : Rec, p.2 = some r → p.1 = pyDumps (.obj r) :=
      fun p hp => hc p (List.mem_cons_of_mem _ hp)
    cases pr with
    | none => simpa [dedupCrLines] using (ih seen hc').cons raw
    | some obj =>
      have hraw : raw = pyDumps (.obj obj) := hc (raw, some obj) (List.mem_cons_self _ _) obj rfl
      by_cases h1 : crKey obj = ""
      · simpa [dedupCrLines, h1, hraw] using (ih seen hc').cons₂ (pyDumps (.obj obj))
      · by_cases h2 : crKey obj ∈ seen
        · simpa [dedupCrLines, h1, h2] using (ih seen hc').cons raw
        · simpa [dedupCrLines, h1, h2, hraw] using
            (ih (crKey obj :: seen) hc').cons₂ (pyDumps (.obj obj))

/-- C8 counterexample.  A kept line is not byte-for-byte the input line:
the input line `{"DOI":"10.1/a"}` (no spaces) is written back by
`_deduplicate_jsonl_file` as `json.dumps` output `{"DOI": "10.1/a"}`. -/
theorem dedup_line_reserialization_counterexample :
    dedupCrLines [] [(c8raw, some c8rec)] = ["\x7b\"DOI\": \"10.1/a\"\x7d"] ∧
    ("\x7b\"DOI\": \"10.1/a\"\x7d" : String) ≠ c8raw := ⟨rfl, by decide⟩

/-- C8 amended.  Deduplication and regex filtering only include or exclude
whole records, never altering parsed content: the kept records are a
subsequence of the input's parsed records, and each kept line is written as
the `json.dumps` re-serialization of its record — byte-for-byte identical to
the input line exactly when the input line already is in `json.dumps`
canonical form (the code re-serializes, normalizing JSON formatting). -/
theorem ops_select_whole_records :
    (∀ (seen : List String) (F : List (Option Rec)),
      List.Sublist (dedupCrKept seen F) (F.filterMap id)) ∧
    (∀ (hashFn : String → Int) (seen : List String) (F : List (Option Rec)),
      List.Sublist (dedupEuKept hashFn seen F) (F.filterMap id)) ∧
    (∀ (sem : String → String → Bool) (groups : Groups) (scope : String)
        (seen : List String) (F : List (Option Rec)),
      List.Sublist (regexFilterCrKept sem groups scope seen F) (F.filterMap id)) ∧
    (∀ (seen : List String) (F : List (String × Option Rec)),
      dedupCrLines seen F
        = (dedupCrKept seen (F.map Prod.snd)).map (fun r => pyDumps (.obj r))) ∧
    (∀ (seen : List String) (F : List (String × Option Rec)),
      (∀ p ∈ F, ∀ r : Rec, p.2 = some r → p.1 = pyDumps (.obj r)) →
      List.Sublist (dedupCrLines seen F) (F.map Prod.fst)) :=
  ⟨dedupCrKept_sublist, dedupEuKept_sublist, regexFilterCrKept_sublist,
   dedupCrLines_eq_map, dedupCrLines_sublist_of_canonical⟩

theorem dedupCrKept_keeps_missing (seen : List String) (F : List (Option Rec)) :
    (dedupCrKept seen F).filter (fun r => crKey r == "")
      = (F.filterMap id).filter (fun r => crKey r == "") := by
  induction F generalizing seen with
  | nil => rfl
  | cons hd tl ih =>
    cases hd with
    | none => simpa [dedupCrKept] using ih seen
    | some obj =>
      by_cases h1 : crKey obj = ""
      · simp [dedupCrKept, h1, List.filter_cons, ih seen]
      · by_cases h2 : crKey obj ∈ seen
        · simp [dedupCrKept, h1, h2, List.filter_cons, ih seen]
        · simp [dedupCrKept, h1, h2, List.filter_cons, ih (crKey obj :: seen)]

theorem euKey_no_doi_id (hashFn : String → Int) (r : Rec)
    (hd : euDoi r = "") (hi : euId r = "") :
    euKey hashFn r = "title:" ++ toString (hashFn (textToStr (jget r "title"))) := by
  simp [euKey, hd, hi]

theorem title_key_ne_empty (x : String) : ("title:" ++ x : String) ≠ "" := by
  intro h
  have hlen : ("title:" ++ x).length = 0 := by rw [h]; rfl
  rw [String.length_append] at hlen
  have h6 : ("title:" : String).length = 6 := rfl
  omega

theorem euTwoNoKey_distinct (hashFn : String → Int) (r1 r2 : Rec)
    (h1d : euDoi r1 = "") (h1i : euId r1 = "")
    (h2d : euDoi r2 = "") (h2i : euId r2 = "")
    (hne : euKey hashFn r1 ≠ euKey hashFn r2) :
    dedupEuKept hashFn [] [some r1, some r2] = [r1, r2] := by
  have k1ne : euKey hashFn r1 ≠ "" :=
    (euKey_no_doi_id hashFn r1 h1d h1i) ▸ title_key_ne_empty _
  have k2ne : euKey hashFn r2 ≠ "" :=
    (euKey_no_doi_id hashFn r2 h2d h2i) ▸ title_key_ne_empty _
  simp [dedupEuKept, k1ne, k2ne, Ne.symm hne]

theorem euTwoNoKey_same_title (hashFn : String → Int) (r1 r2 : Rec)
    (h1d : euDoi r1 = "") (h1i : euId r1 = "")
    (h2d : euDoi r2 = "") (h2i : euId r2 = "")
    (ht : textToStr (jget r1 "title") = textToStr (jget r2 "title")) :
    dedupEuKept hashFn [] [some r1, some r2] = [r1] := by
  have hkey : euKey hashFn r2 = euKey hashFn r1 := by
    rw [euKey_no_doi_id hashFn r1 h1d h1i, euKey_no_doi_id hashFn r2 h2d h2i, ht]
  have k1ne : euKey hashFn r1 ≠ "" :=
    (euKey_no_doi_id hashFn r1 h1d h1i) ▸ title_key_ne_empty _
  have k2ne : euKey hashFn r2 ≠ "" := hkey ▸ k1ne
  simp [dedupEuKept, k1ne, k2ne, hkey]

/-- C2 counterexample.  Two Europe PMC records that both lack a DOI and a
source id but share the same title are NOT both kept by
`_deduplicate_jsonl_file`: the title-hash fallback key of
`_dedup_key_eupmc` is never empty, so the second record is dropped as a
duplicate (here with a concrete per-process hash function). -/
theorem eupmc_title_dedup_counterexample :
    euDoi c2rec = "" ∧ euId c2rec = "" ∧
    dedupEuKept lenHash [] [some c2rec, some c2rec] = [c2rec] ∧
    (dedupEuKept lenHash [] [some c2rec, some c2rec]).length ≠ 2 :=
  ⟨rfl, rfl, rfl, by decide⟩

/-- C2 amended.  Crossref records lacking a DOI are always written and are
never treated as duplicates of each other (the missing-key records of the
output are exactly those of the input, in order).  Europe PMC records
lacking both DOI and id receive the nonempty title-hash fallback key and
are deduplicated by it: two such records are both kept when their fallback
keys differ, but of two such records with equal titles only the first is
kept. -/
theorem missing_key_dedup_amended :
    (∀ (seen : List String) (F : List (Option Rec)),
      (dedupCrKept seen F).filter (fun r => crKey r == "")
        = (F.filterMap id).filter (fun r => crKey r == "")) ∧
    (∀ (hashFn : String → Int) (r1 r2 : Rec),
      euDoi r1 = "" → euId r1 = "" → euDoi r2 = "" → euId r2 = "" →
      euKey hashFn r1 ≠ euKey hashFn r2 →
      dedupEuKept hashFn [] [some r1, some r2] = [r1, r2]) ∧
    (∀ (hashFn : String → Int) (r1 r2 : Rec),
      euDoi r1 = "" → euId r1 = "" → euDoi r2 = "" → euId r2 = "" →
      textToStr (jget r1 "title") = textToStr (jget r2 "title") →
      dedupEuKept hashFn [] [some r1, some r2] = [r1]) :=
  ⟨dedupCrKept_keeps_missing, euTwoNoKey_distinct, euTwoNoKey_same_title⟩

theorem textMatchesGroups_iff (sem : String → String → Bool) (text : String)
    (groups : Groups) :
    textMatchesGroups sem text groups = true ↔
      (groups ≠ [] ∧ text ≠ "" ∧ ∀ gp ∈ groups, ∃ p ∈ gp.2, sem p text = true) := by
  unfold textMatchesGroups
  by_cases hg : groups.isEmpty
  · have hnil : groups = [] := by
      cases groups with
      | nil => rfl
      | cons a l => simp [List.isEmpty] at hg
    simp [hg, hnil]
  · have hgn : groups ≠ [] := by
      intro h
      rw [h] at hg
      exact hg rfl
    by_cases ht : text = ""
    · simp [hg, ht]
    · simp [hg, ht, hgn, List.all_eq_true, List.any_eq_true]

theorem textMatchesGroups_nil (sem : String → String → Bool) (text : String) :
    textMatchesGroups sem text [] = false := rfl

theorem matchesEntryGroups_nil (sem : String → String → Bool) (entry : Rec)
    (scope : String) :
    matchesEntryGroups sem entry [] scope = false := by
  unfold matchesEntryGroups
  split
  · rfl
  · split
    · rfl
    · split <;> rfl

theorem euMatchesEntryGroups_nil (sem : String → String → Bool) (entry : Rec)
    (scope : String) :
    euMatchesEntryGroups sem entry [] scope = false := by
  unfold euMatchesEntryGroups
  split
  · rfl
  · split
    · rfl
    · split <;> rfl

theorem regexFilterCrKept_nil_groups (sem : String → String → Bool) (scope : String)
    (seen : List String) (F : List (Option Rec)) :
    regexFilterCrKept sem [] scope seen F = [] := by
  induction F generalizing seen with
  | nil => rfl
  | cons hd tl ih =>
    cases hd with
    | none => simpa [regexFilterCrKept] using ih seen
    | some obj => simp [regexFilterCrKept, matchesEntryGroups_nil, ih seen]

/-- C5 counterexample.  The claimed iff — "matches iff for every group at
least one pattern matches the scope-selected text" — fails on the code at
two concrete inputs: (a) with zero groups every group vacuously matches
yet the filter rejects; (b) with title `""` and the everywhere-matching
empty pattern every group matches the selected text yet the filter
rejects (empty text is falsy and fails closed). -/
theorem filter_iff_counterexample :
    (matchesEntryGroups substrMatch c5anyRec [] "title" = false ∧
      ∀ gp ∈ ([] : Groups), ∃ p ∈ gp.2,
        substrMatch p (textToStr (jget c5anyRec "title")) = true) ∧
    (matchesEntryGroups substrMatch c5emptyTitle c5grpAll "title" = false ∧
      ∀ gp ∈ c5grpAll, ∃ p ∈ gp.2,
        substrMatch p (textToStr (jget c5emptyTitle "title")) = true) :=
  ⟨⟨rfl, by simp⟩, ⟨rfl, by decide⟩⟩

/-- C5 amended.  Provided the configuration has at least one group and the
scope-selected text is nonempty, the filter matches iff every group has
at least one pattern matching that text (AND across groups, OR within a
group); a no-group configuration or an empty selected text rejects.  Under
scope `field` the record matches iff the title alone or the abstract alone
matches; under `combined` the title and abstract are joined with a space
(empty fields skipped) and evaluated once.  The worked `foo`/`bar` record
matches under `combined` and not under `field`. -/
theorem filter_semantics_amended :
    (∀ (sem : String → String → Bool) (entry : Rec) (groups : Groups),
      (matchesEntryGroups sem entry groups "title" = true ↔
        (groups ≠ [] ∧ textToStr (jget entry "title") ≠ "" ∧
          ∀ gp ∈ groups, ∃ p ∈ gp.2, sem p (textToStr (jget entry "title")) = true)) ∧
      (matchesEntryGroups sem entry groups "abstract" = true ↔
        (groups ≠ [] ∧ textToStr (jget entry "abstract") ≠ "" ∧
          ∀ gp ∈ groups, ∃ p ∈ gp.2, sem p (textToStr (jget entry "abstract")) = true)) ∧
      (matchesEntryGroups sem entry groups "field" = true ↔
        (matchesEntryGroups sem entry groups "title" = true ∨
          matchesEntryGroups sem entry groups "abstract" = true)) ∧
      (matchesEntryGroups sem entry groups "combined" = true ↔
        (groups ≠ [] ∧
          joinTruthy [textToStr (jget entry "title"),
                      textToStr (jget entry "abstract")] ≠ "" ∧
          ∀ gp ∈ groups, ∃ p ∈ gp.2,
            sem p (joinTruthy [textToStr (jget entry "title"),
                               textToStr (jget entry "abstract")]) = true))) ∧
    (matchesEntryGroups substrMatch c5fooBar c5groups "combined" = true ∧
      matchesEntryGroups substrMatch c5fooBar c5groups "field" = false) := by
  refine ⟨fun sem entry groups => ⟨?_, ?_, ?_, ?_⟩, by decide, by decide⟩
  · simpa [matchesEntryGroups] using
      textMatchesGroups_iff sem (textToStr (jget entry "title")) groups
  · simpa [matchesEntryGroups] using
      textMatchesGroups_iff sem (textToStr (jget entry "abstract")) groups
  · simp [matchesEntryGroups]
  · simpa [matchesEntryGroups, joinTruthy] using
      textMatchesGroups_iff sem
        (joinTruthy [textToStr (jget entry "title"),
                     textToStr (jget entry "abstract")]) groups

/-- C6.  An empty (`{}`) or non-dict regex configuration normalizes to the
no-groups configuration with the default scope, and a no-groups
configuration matches nothing under every scope: the filter keeps zero
records of any input file and, being a total function, raises nothing. -/
theorem empty_cfg_fail_closed :
    normalizeRegexCfg none = ([], "field") ∧
    normalizeRegexCfg (some (.obj [])) = ([], "field") ∧
    (∀ cfg : JVal, isObjB cfg = false → normalizeRegexCfg (some cfg) = ([], "field")) ∧
    (∀ (sem : String → String → Bool) (entry : Rec) (scope : String),
      matchesEntryGroups sem entry [] scope = false) ∧
    (∀ (sem : String → String → Bool) (entry : Rec) (scope : String),
      euMatchesEntryGroups sem entry [] scope = false) ∧
    (∀ (sem : String → String → Bool) (scope : String) (seen : List String)
        (F : List (Option Rec)),
      regexFilterCrKept sem [] scope seen F = []) := by
  refine ⟨rfl, rfl, ?_, matchesEntryGroups_nil, euMatchesEntryGroups_nil,
    regexFilterCrKept_nil_groups⟩
  intro cfg h
  cases cfg <;> first
    | rfl
    | simp [isObjB] at h

/-- C9.  A scope string that is none of `title`, `abstract`, `field` —
`combined` itself, a misspelling, or the rendering of a non-string value —
always takes the final branch of the matcher: behaviour is exactly that of
scope `combined`, with no error and no rejection caused by the scope
alone, for the Crossref and Europe PMC matchers alike. -/
theorem unknown_scope_is_combined (sem : String → String → Bool) (entry : Rec)
    (groups : Groups) (scope : String)
    (h1 : scope ≠ "title") (h2 : scope ≠ "abstract") (h3 : scope ≠ "field") :
    matchesEntryGroups sem entry groups scope
        = matchesEntryGroups sem entry groups "combined" ∧
    euMatchesEntryGroups sem entry groups scope
        = euMatchesEntryGroups sem entry groups "combined" := by
  constructor <;> simp [matchesEntryGroups, euMatchesEntryGroups, h1, h2, h3]

/-- The hypotheses of `unknown_scope_is_combined` hold at the concrete
misspelt scope `combnied`. -/
theorem unknown_scope_is_combined_witness :
    matchesEntryGroups substrMatch c5fooBar c5groups "combnied"
        = matchesEntryGroups substrMatch c5fooBar c5groups "combined" ∧
    euMatchesEntryGroups substrMatch c5fooBar c5groups "combnied"
        = euMatchesEntryGroups substrMatch c5fooBar c5groups "combined" :=
  unknown_scope_is_combined substrMatch c5fooBar c5groups "combnied"
    (by decide) (by decide) (by decide)

theorem jget_setField_ne (e : Rec) (k k' : String) (v : JVal) (h : k' ≠ k) :
    jget (setField e k v) k' = jget e k' := by
  induction e with
  | nil => simp [setField, jget, Ne.symm h]
  | cons hd tl ih =>
    obtain ⟨k0, v0⟩ := hd
    by_cases h0 : k0 = k
    · subst h0
      simp [setField, jget, Ne.symm h]
    · by_cases h1 : k0 = k'
      · simp [setField, jget, h0, h1, h]
      · simp [setField, jget, h0, h1, h, ih]

theorem crKey_setField (q : String) (e : Rec) :
    crKey (setField e "source_query" (.str q)) = crKey e := by
  unfold crKey
  rw [jget_setField_ne e "source_query" "DOI" _ (by decide),
      jget_setField_ne e "source_query" "doi" _ (by decide)]

theorem euKey_setField (hashFn : String → Int) (q : String) (e : Rec) :
    euKey hashFn (setField e "source_query" (.str q)) = euKey hashFn e := by
  unfold euKey euDoi euId
  rw [jget_setField_ne e "source_query" "doi" _ (by decide),
      jget_setField_ne e "source_query" "DOI" _ (by decide),
      jget_setField_ne e "source_query" "id" _ (by decide),
      jget_setField_ne e "source_query" "title" _ (by decide)]

theorem crWritePairs_append (dedupe : Bool) (seen : List String)
    (l1 l2 : List (String × Rec)) :
    crWritePairs dedupe seen (l1 ++ l2)
      = ((crWritePairs dedupe seen l1).1
           ++ (crWritePairs dedupe (crWritePairs dedupe seen l1).2 l2).1,
         (crWritePairs dedupe (crWritePairs dedupe seen l1).2 l2).2) := by
  induction l1 generalizing seen with
  | nil => simp [crWritePairs]
  | cons hd tl ih =>
    obtain ⟨q, e⟩ := hd
    by_cases h1 : (dedupe && !(crKey (setField e "source_query" (.str q)) == "")) = true
    · by_cases h2 : crKey (setField e "source_query" (.str q)) ∈ seen
      · simp [crWritePairs, h1, h2, ih seen]
      · simp [crWritePairs, h1, h2,
          ih (crKey (setField e "source_query" (.str q)) :: seen)]
    · simp [crWritePairs, h1, ih seen]

theorem euWritePairs_append (hashFn : String → Int) (dedupe : Bool) (seen : List String)
    (l1 l2 : List (String × Rec)) :
    euWritePairs hashFn dedupe seen (l1 ++ l2)
      = ((euWritePairs hashFn dedupe seen l1).1
           ++ (euWritePairs hashFn dedupe (euWritePairs hashFn dedupe seen l1).2 l2).1,
         (euWritePairs hashFn dedupe (euWritePairs hashFn dedupe seen l1).2 l2).2) := by
  induction l1 generalizing seen with
  | nil => simp [euWritePairs]
  | cons hd tl ih =>
    obtain ⟨q, e⟩ := hd
    by_cases h1 : (dedupe && decide (euKey hashFn (setField e "source_query" (.str q)) ∈ seen)) = true
    · simp [euWritePairs, h1, ih seen]
    · simp [euWritePairs, h1,
        ih (euKey hashFn (setField e "source_query" (.str q)) :: seen)]

theorem crossrefLoop_written (rows : Nat) (dedupe : Bool) (q cursor : String)
    (seen : List String) (resps : List ApiResponse) :
    (crossrefLoop rows dedupe q cursor seen resps).written
        = (crWritePairs dedupe seen ((crConsumed rows resps).map fun e => (q, e))).1 ∧
    (crossrefLoop rows dedupe q cursor seen resps).seenOut
        = (crWritePairs dedupe seen ((crConsumed rows resps).map fun e => (q, e))).2 := by
  induction resps generalizing cursor seen with
  | nil => simp [crossrefLoop, crConsumed, crWritePairs]
  | cons hd tl ih =>
    cases hd with
    | rateLimited => simpa [crossrefLoop, crConsumed] using ih cursor seen
    | netError => simpa [crossrefLoop, crConsumed] using ih cursor seen
    | ok batch next =>
      by_cases hstop1 : (batch.isEmpty || batch.length < rows) = true
      · simp [crossrefLoop, crConsumed, hstop1]
      · by_cases hstop2 : (!cursorTruthy next) = true
        · simp [crossrefLoop, crConsumed, hstop1, hstop2]
        · have hrec := ih (cursorVal next)
            ((crWritePairs dedupe seen (batch.map fun e => (q, e))).2)
          simp [crossrefLoop, crConsumed, hstop1, hstop2, List.map_append,
            crWritePairs_append, hrec.1, hrec.2]

theorem searchCrossrefCursor_written (rows : Nat) (dedupe : Bool) (seen : List String)
    (queries : List (String × List ApiResponse)) :
    (searchCrossrefCursor rows dedupe seen queries).1
        = (crWritePairs dedupe seen (crStream rows queries)).1 ∧
    (searchCrossrefCursor rows dedupe seen queries).2
        = (crWritePairs dedupe seen (crStream rows queries)).2 := by
  induction queries generalizing seen with
  | nil => simp [searchCrossrefCursor, crStream, crWritePairs]
  | cons hd qs ih =>
    obtain ⟨q, resps⟩ := hd
    have hl := crossrefLoop_written rows dedupe q "*" seen resps
    have hrec := ih ((crWritePairs dedupe seen
      ((crConsumed rows resps).map fun e => (q, e))).2)
    simp [searchCrossrefCursor, crStream, crWritePairs_append, hl.1, hl.2,
      hrec.1, hrec.2]

theorem searchEupmcKeywords_written (hashFn : String → Int) (pageSize : Nat)
    (dedupe : Bool) (seen : List String)
    (queries : List (String × List ApiResponse)) :
    (searchEupmcKeywords hashFn pageSize dedupe seen queries).1
        = (euWritePairs hashFn dedupe seen (euStream pageSize queries)).1 ∧
    (searchEupmcKeywords hashFn pageSize dedupe seen queries).2
        = (euWritePairs hashFn dedupe seen (euStream pageSize queries)).2 := by
  induction queries generalizing seen with
  | nil => simp [searchEupmcKeywords, euStream, euWritePairs]
  | cons hd qs ih =>
    obtain ⟨q, resps⟩ := hd
    have hrec := ih ((euWritePairs hashFn dedupe seen
      (((eupmcIter pageSize "*" resps).yielded).map fun e => (q, e))).2)
    simp [searchEupmcKeywords, euStream, euWritePairs_append, hrec.1, hrec.2]

theorem crWritePairs_filter_key (k : String) (hk : k ≠ "") (seen : List String)
    (pairs : List (String × Rec)) :
    ((crWritePairs true seen pairs).1.filter fun e => crKey e == k)
      = if k ∈ seen then []
        else
          match pairs.find? (fun p => crKey p.2 == k) with
          | some (q, e) => [setField e "source_query" (.str q)]
          | none => [] := by
  induction pairs generalizing seen with
  | nil => by_cases h : k ∈ seen <;> simp [crWritePairs, h]
  | cons hd tl ih =>
    obtain ⟨q, e⟩ := hd
    have hkey : crKey (setField e "source_query" (.str q)) = crKey e := crKey_setField q e
    by_cases h0 : crKey e = ""
    · have hne : ("" : String) ≠ k := Ne.symm hk
      simp [crWritePairs, hkey, h0, hne, List.filter_cons, List.find?_cons, ih seen]
    · by_cases hek : crKey e = k
      · by_cases hs : k ∈ seen
        · simp [crWritePairs, hkey, h0, hek, hs, hk, ih seen]
        · simp [crWritePairs, hkey, h0, hek, hs, hk, List.filter_cons, List.find?_cons,
            List.mem_cons, ih (k :: seen)]
      · have hkc : k ≠ crKey e := fun hh => hek hh.symm
        by_cases hs : crKey e ∈ seen
        · simp [crWritePairs, hkey, h0, hek, hs, List.find?_cons, ih seen]
        · have hmem : (k ∈ crKey e :: seen) ↔ (k ∈ seen) := by
            simp [List.mem_cons, hkc]
          simp [crWritePairs, hkey, h0, hek, hs, List.filter_cons, List.find?_cons,
            ih (crKey e :: seen), hmem]

theorem euWritePairs_filter_key (hashFn : String → Int) (k : String)
    (seen : List String) (pairs : List (String × Rec)) :
    ((euWritePairs hashFn true seen pairs).1.filter fun e => euKey hashFn e == k)
      = if k ∈ seen then []
        else
          match pairs.find? (fun p => euKey hashFn p.2 == k) with
          | some (q, e) => [setField e "source_query" (.str q)]
          | none => [] := by
  induction pairs generalizing seen with
  | nil => by_cases h : k ∈ seen <;> simp [euWritePairs, h]
  | cons hd tl ih =>
    obtain ⟨q, e⟩ := hd
    have hkey : euKey hashFn (setField e "source_query" (.str q)) = euKey hashFn e :=
      euKey_setField hashFn q e
    by_cases hek : euKey hashFn e = k
    · by_cases hs : k ∈ seen
      · simp [euWritePairs, hkey, hek, hs, ih seen]
      · simp [euWritePairs, hkey, hek, hs, List.filter_cons, List.find?_cons,
          ih (k :: seen)]
    · have hkc : k ≠ euKey hashFn e := fun hh => hek hh.symm
      by_cases hs : euKey hashFn e ∈ seen
      · simp [euWritePairs, hkey, hek, hs, List.find?_cons, ih seen]
      · have hmem : (k ∈ euKey hashFn e :: seen) ↔ (k ∈ seen) := by
          simp [List.mem_cons, hkc]
        simp [euWritePairs, hkey, hek, hs, List.filter_cons, List.find?_cons,
          ih (euKey hashFn e :: seen), hmem]

/-- C10.  With `dedupe_on_write` on, the seen-key set is shared across all
queries of one `search_crossref_cursor` / `search_eupmc_keywords` call:
among the written records, those carrying a given identity key (a nonempty
DOI for Crossref; any `_dedup_key_eupmc` key for Europe PMC) are exactly
one — the first record of the multi-query fetch stream with that key,
annotated with the `source_query` of the query that first returned it —
or none when no fetched record has the key. -/
theorem shared_seen_first_query_wins :
    (∀ (rows : Nat) (queries : List (String × List ApiResponse)) (k : String),
      k ≠ "" →
      ((searchCrossrefCursor rows true [] queries).1.filter fun e => crKey e == k)
        = (match (crStream rows queries).find? (fun p => crKey p.2 == k) with
           | some (q, e) => [setField e "source_query" (.str q)]
           | none => [])) ∧
    (∀ (hashFn : String → Int) (pageSize : Nat)
        (queries : List (String × List ApiResponse)) (k : String),
      ((searchEupmcKeywords hashFn pageSize true [] queries).1.filter
          fun e => euKey hashFn e == k)
        = (match (euStream pageSize queries).find? (fun p => euKey hashFn p.2 == k) with
           | some (q, e) => [setField e "source_query" (.str q)]
           | none => [])) := by
  constructor
  · intro rows queries k hk
    rw [(searchCrossrefCursor_written rows true [] queries).1,
      crWritePairs_filter_key k hk [] (crStream rows queries)]
    simp
  · intro hashFn pageSize queries k
    rw [(searchEupmcKeywords_written hashFn pageSize true [] queries).1,
      euWritePairs_filter_key hashFn k [] (euStream pageSize queries)]
    simp

theorem eupmcIter_final (pageSize : Nat) (cursor : String) (pre : List ApiResponse)
    (items : List Rec) (next : Option String) (post : List ApiResponse)
    (hpre : pre.all (nonFinal pageSize) = true)
    (hfin : finalPage pageSize items next = true) :
    (eupmcIter pageSize cursor (pre ++ .ok items next :: post)).leftover = post ∧
    (eupmcIter pageSize cursor (pre ++ .ok items next :: post)).requests.length
        = pre.length + 1 ∧
    (eupmcIter pageSize cursor (pre ++ .ok items next :: post)).yielded
        = pre.flatMap respItems ++ items := by
  revert hpre
  induction pre generalizing cursor with
  | nil =>
    intro _
    have hc : (items.isEmpty || items.length < pageSize || !cursorTruthy next) = true := hfin
    simp [eupmcIter, hc]
  | cons hd tlp ih =>
    intro hpre
    have hhd : nonFinal pageSize hd = true :=
      (List.all_eq_true.mp hpre) hd (List.mem_cons_self _ _)
    have htl : tlp.all (nonFinal pageSize) = true := by
      rw [List.all_eq_true] at hpre ⊢
      exact fun r hr => hpre r (List.mem_cons_of_mem _ hr)
    cases hd with
    | rateLimited => simpa [eupmcIter, respItems] using ih cursor htl
    | netError => simpa [eupmcIter, respItems] using ih cursor htl
    | ok b n =>
      simp only [nonFinal, Bool.and_eq_true, Bool.not_eq_true'] at hhd
      have hcond : (b.isEmpty || b.length < pageSize || !cursorTruthy n) = false := by
        rcases hhd with ⟨h1, h2⟩
        rcases Bool.or_eq_false_iff.mp h1 with ⟨h1a, h1b⟩
        simp [h1a, h1b, h2]
      have hrec := ih (cursorVal n) htl
      simp [eupmcIter, hcond, respItems, hrec.1, hrec.2.1, hrec.2.2,
        List.append_assoc]

theorem crossrefLoop_final (rows : Nat) (dedupe : Bool) (q cursor : String)
    (seen : List String) (pre : List ApiResponse) (items : List Rec)
    (next : Option String) (post : List ApiResponse)
    (hpre : pre.all (nonFinal rows) = true)
    (hfin : finalPage rows items next = true) :
    (crossrefLoop rows dedupe q cursor seen (pre ++ .ok items next :: post)).leftover
        = post ∧
    (crossrefLoop rows dedupe q cursor seen (pre ++ .ok items next :: post)).requests.length
        = pre.length + 1 ∧
    (crossrefLoop rows dedupe q cursor seen (pre ++ .ok items next :: post)).written
        = (crWritePairs dedupe seen
            ((pre.flatMap respItems ++ items).map fun e => (q, e))).1 := by
  revert hpre
  induction pre generalizing cursor seen with
  | nil =>
    intro _
    by_cases hab : (items.isEmpty || items.length < rows) = true
    · simp [crossrefLoop, hab]
    · have hnc : (!cursorTruthy next) = true := by
        have hf := hfin
        unfold finalPage at hf
        rcases Bool.or_eq_true_iff.mp hf with h | h
        · exact absurd h hab
        · exact h
      simp [crossrefLoop, hab, hnc]
  | cons hd tlp ih =>
    intro hpre
    have hhd : nonFinal rows hd = true :=
      (List.all_eq_true.mp hpre) hd (List.mem_cons_self _ _)
    have htl : tlp.all (nonFinal rows) = true := by
      rw [List.all_eq_true] at hpre ⊢
      exact fun r hr => hpre r (List.mem_cons_of_mem _ hr)
    cases hd with
    | rateLimited => simpa [crossrefLoop, respItems] using ih cursor seen htl
    | netError => simpa [crossrefLoop, respItems] using ih cursor seen htl
    | ok b n =>
      simp only [nonFinal, Bool.and_eq_true, Bool.not_eq_true'] at hhd
      rcases hhd with ⟨h1, h2⟩
      have hrec := ih (cursorVal n)
        ((crWritePairs dedupe seen (b.map fun e => (q, e))).2) htl
      simp [crossrefLoop, h1, h2, respItems, hrec.1, hrec.2.1, hrec.2.2,
        List.map_append, crWritePairs_append, List.append_assoc]

/-- C3.  When a mocked response sequence consists of non-final responses
(429s, transport errors, or full pages with a next cursor) followed by a
successfully fetched final page — empty, or strictly smaller than the page
size, or carrying no truthy next cursor — the pagination loop of
`eupmc_iter_results` stops right after that page: it leaves the remaining
responses unrequested, issues exactly one request per consumed response,
and still yields every record of the final batch after those of the
earlier batches.  The `search_crossref_cursor` loop does the same, its
written records being the dedup-processed stream that includes the whole
final batch. -/
theorem pagination_stops_on_final_batch (pageSize : Nat) (cursor q : String)
    (seen : List String) (pre : List ApiResponse) (items : List Rec)
    (next : Option String) (post : List ApiResponse)
    (hpre : pre.all (nonFinal pageSize) = true)
    (hfin : finalPage pageSize items next = true) :
    (eupmcIter pageSize cursor (pre ++ .ok items next :: post)).leftover = post ∧
    (eupmcIter pageSize cursor (pre ++ .ok items next :: post)).requests.length
        = pre.length + 1 ∧
    (eupmcIter pageSize cursor (pre ++ .ok items next :: post)).yielded
        = pre.flatMap respItems ++ items ∧
    (crossrefLoop pageSize true q cursor seen (pre ++ .ok items next :: post)).leftover
        = post ∧
    (crossrefLoop pageSize true q cursor seen
        (pre ++ .ok items next :: post)).requests.length = pre.length + 1 ∧
    (crossrefLoop pageSize true q cursor seen (pre ++ .ok items next :: post)).written
        = (crWritePairs true seen
            ((pre.flatMap respItems ++ items).map fun e => (q, e))).1 := by
  obtain ⟨e1, e2, e3⟩ := eupmcIter_final pageSize cursor pre items next post hpre hfin
  obtain ⟨c1, c2, c3⟩ :=
    crossrefLoop_final pageSize true q cursor seen pre items next post hpre hfin
  exact ⟨e1, e2, e3, c1, c2, c3⟩

/-- The hypotheses of `pagination_stops_on_final_batch` hold at a concrete
mocked run: page size 2, one 429 then a full page, then a final one-record
page; the loop never touches the response beyond it. -/
theorem pagination_stops_on_final_batch_witness :
    (eupmcIter 2 "*" (c3pre ++ .ok [w3] (some "c3") :: c3post)).leftover = c3post ∧
    (eupmcIter 2 "*" (c3pre ++ .ok [w3] (some "c3") :: c3post)).requests.length = 3 ∧
    (eupmcIter 2 "*" (c3pre ++ .ok [w3] (some "c3") :: c3post)).yielded
        = c3pre.flatMap respItems ++ [w3] ∧
    (crossrefLoop 2 true "Q" "*" [] (c3pre ++ .ok [w3] (some "c3") :: c3post)).leftover
        = c3post ∧
    (crossrefLoop 2 true "Q" "*" []
        (c3pre ++ .ok [w3] (some "c3") :: c3post)).requests.length = 3 ∧
    (crossrefLoop 2 true "Q" "*" [] (c3pre ++ .ok [w3] (some "c3") :: c3post)).written
        = (crWritePairs true []
            ((c3pre.flatMap respItems ++ [w3]).map fun e => ("Q", e))).1 :=
  pagination_stops_on_final_batch 2 "*" "Q" [] c3pre [w3] (some "c3") c3post
    (by decide) (by decide)

/-- C4.  On the mocked sequence `[429, 429, 200-with-data]` (final page
smaller than the page size) both clients issue exactly 3 requests, all —
in particular the first two — carrying the same, unadvanced cursor; the
records delivered are those of the third response (for Crossref, fed with
its `source_query` annotation through the dedup-write step), and no mocked
response remains unconsumed. -/
theorem rate_limit_retries_same_cursor (pageSize : Nat) (cursor q : String)
    (seen : List String) (items : List Rec) (next : Option String)
    (hsmall : items.length < pageSize) :
    (eupmcIter pageSize cursor [.rateLimited, .rateLimited, .ok items next]).requests
        = [cursor, cursor, cursor] ∧
    (eupmcIter pageSize cursor [.rateLimited, .rateLimited, .ok items next]).yielded
        = items ∧
    (eupmcIter pageSize cursor [.rateLimited, .rateLimited, .ok items next]).leftover
        = [] ∧
    (crossrefLoop pageSize true q cursor seen
        [.rateLimited, .rateLimited, .ok items next]).requests
        = [cursor, cursor, cursor] ∧
    (crossrefLoop pageSize true q cursor seen
        [.rateLimited, .rateLimited, .ok items next]).written
        = (crWritePairs true seen (items.map fun e => (q, e))).1 ∧
    (crossrefLoop pageSize true q cursor seen
        [.rateLimited, .rateLimited, .ok items next]).leftover = [] := by
  have hc : (items.isEmpty || items.length < pageSize || !cursorTruthy next) = true := by
    simp [hsmall]
  have hc2 : (items.isEmpty || items.length < pageSize) = true := by
    simp [hsmall]
  simp [eupmcIter, crossrefLoop, hc, hc2]

/-- The hypothesis of `rate_limit_retries_same_cursor` holds at a concrete
one-record final page against page size 1000. -/
theorem rate_limit_retries_same_cursor_witness :
    (eupmcIter 1000 "*" [.rateLimited, .rateLimited, .ok [w1] none]).requests
        = ["*", "*", "*"] ∧
    (eupmcIter 1000 "*" [.rateLimited, .rateLimited, .ok [w1] none]).yielded = [w1] ∧
    (eupmcIter 1000 "*" [.rateLimited, .rateLimited, .ok [w1] none]).leftover = [] ∧
    (crossrefLoop 1000 true "Q" "*" []
        [.rateLimited, .rateLimited, .ok [w1] none]).requests = ["*", "*", "*"] ∧
    (crossrefLoop 1000 true "Q" "*" []
        [.rateLimited, .rateLimited, .ok [w1] none]).written
        = (crWritePairs true [] ([w1].map fun e => ("Q", e))).1 ∧
    (crossrefLoop 1000 true "Q" "*" []
        [.rateLimited, .rateLimited, .ok [w1] none]).leftover = [] :=
  rate_limit_retries_same_cursor 1000 "*" "Q" [] [w1] none (by decide)

end SciPub
